import Mathlib

/-!
Verification development for the rule-scout repository (src/rule_scout.py and
src/update-comment-date.py).  The reconciliation logic of the two scripts is
embedded shallowly: Python strings become `String` (with character-list
manipulation on `List Char`), Python `datetime` values become `Nat` timestamps
counted in seconds (minute truncation zeroes the sub-minute part), Python sets
become `Finset` values obtained through `List.toFinset`, and `sorted(...)`
becomes insertion sort by code-point order (any stable sort of a list of
strings or naturals yields the same list).  The destination store's rich-text
list fields are modelled at the level `parse_rich_text_list` decodes them to:
the list of item strings.
-/

/-- The character set stripped by `term.strip(', ')` in `Docket.from_api`
(src/rule_scout.py line 45): commas and spaces. -/
def isStripChar (c : Char) : Bool := c = ',' || c = ' '

/-- Python `s.strip(', ')`: remove leading and trailing characters belonging
to the strip set. -/
def pyStrip (l : List Char) : List Char :=
  ((l.dropWhile isStripChar).reverse.dropWhile isStripChar).reverse

/-- Python `s.strip(', ')` lifted to `String`. -/
def stripStr (s : String) : String := ⟨pyStrip s.data⟩

/-- Python `', ' in s`: the two-character substring comma-space occurs in the
string (src/rule_scout.py line 55). -/
def containsCommaSpace : List Char → Bool
  | [] => false
  | a :: rest =>
    (match rest with
     | b :: _ => a = ',' && b = ' '
     | [] => false)
    || containsCommaSpace rest

/-- ASCII whitespace, as matched by the regex class backslash-s of
`re.split` in src/rule_scout.py line 56 (the model restricts Python's
Unicode whitespace class to its ASCII part). -/
def isPySpace (c : Char) : Bool :=
  c = ' ' || c = '\t' || c = '\n' || c = '\r' || c = '\x0b' || c = '\x0c'

/-- Whether a character list starts with an ASCII whitespace character. -/
def headSpace : List Char → Bool
  | c :: _ => isPySpace c
  | [] => false

/-- Scanner for `re.split` on comma-plus-whitespace: `inSep` records that we
are still inside the whitespace run of a separator just matched, `cur` is the
reversed current segment.  A comma followed by whitespace starts a separator;
the greedy whitespace run after it is consumed by the `inSep` branch. -/
def splitGo (inSep : Bool) (cur : List Char) : List Char → List (List Char)
  | [] => [cur.reverse]
  | c :: rest =>
    if inSep && isPySpace c then splitGo true cur rest
    else if c = ',' && headSpace rest then cur.reverse :: splitGo true [] rest
    else splitGo false (c :: cur) rest

/-- Python `re.split(r',\s+', s)` (src/rule_scout.py line 56): split on each
non-overlapping match of a comma followed by a maximal whitespace run. -/
def splitCommaWs (l : List Char) : List (List Char) := splitGo false [] l

/-- Python `re.sub(r',', ';', term)` (src/rule_scout.py line 66): replace
every comma with a semicolon. -/
def replaceCommas (l : List Char) : List Char :=
  l.map (fun c => if c = ',' then ';' else c)

/-- Python `re.sub(r', ', ' and ', topic)` (src/rule_scout.py lines 486 and
550): each comma-plus-space pair is rewritten to the five characters
space-a-n-d-space, scanning left to right. -/
def rewriteCommaSpace : List Char → List Char
  | ',' :: ' ' :: rest => ' ' :: 'a' :: 'n' :: 'd' :: ' ' :: rewriteCommaSpace rest
  | c :: rest => c :: rewriteCommaSpace rest
  | [] => []

/-- `re.sub(r', ', ' and ', topic)` lifted to `String`. -/
def rewriteCommaSpaceStr (s : String) : String := ⟨rewriteCommaSpace s.data⟩

/-- ASCII lowering of one character, the fragment of Python `str.lower`
exercised by the RIN comparisons (RINs and the literal `"not assigned"` are
ASCII). -/
def lowerChar (c : Char) : Char :=
  if 65 ≤ c.toNat ∧ c.toNat ≤ 90 then Char.ofNat (c.toNat + 32) else c

/-- Python `s.lower()` restricted to ASCII case folding. -/
def lowerStr (s : String) : String := ⟨s.data.map lowerChar⟩

/-- Code-point comparison of character lists, the order Python uses to sort
strings. -/
def listLe : List Char → List Char → Bool
  | [], _ => true
  | _ :: _, [] => false
  | a :: as, b :: bs =>
    if a.toNat < b.toNat then true
    else if b.toNat < a.toNat then false
    else listLe as bs

/-- Python's `<=` on strings: code-point lexicographic order. -/
def strLe (a b : String) : Prop := listLe a.data b.data = true

instance : DecidableRel strLe :=
  fun a b => instDecidableEqBool (listLe a.data b.data) true

/-- Python `sorted` on a list of strings. -/
def sortStrings (l : List String) : List String := List.insertionSort strLe l

/-- Python `sorted` on a list of naturals (timestamps). -/
def sortNats (l : List Nat) : List Nat := List.insertionSort (· ≤ ·) l

/-- The raw regulations.gov docket payload fields consumed by
`Docket.from_api` (src/rule_scout.py lines 36-68): `attributes.rin` (may be
null), `attributes.keywords` (may be null), plus the identity and the
pass-through attributes. -/
structure DocketPayload where
  id : String
  title : String
  docketType : String
  keywords : Option (List String)
  rin : Option String
deriving DecidableEq

/-- The parsed `Docket` dataclass (src/rule_scout.py lines 27-34). -/
structure Docket where
  id : String
  title : String
  url : String
  type : String
  keywords : List String
  rin : Option String
deriving DecidableEq

/-- The keyword pipeline of `Docket.from_api` (src/rule_scout.py lines
44-66): strip each raw keyword of leading and trailing commas and spaces
(line 45); when the stripped list is a single string containing
comma-plus-space, split it on comma-plus-whitespace (lines 55-56); finally
replace every comma in every keyword with a semicolon (line 66). -/
def docketKeywordsOf (raw : Option (List String)) : List String :=
  let keywords0 : List String := (raw.getD []).map stripStr
  let keywords1 : List String :=
    match keywords0 with
    | [k] =>
      if containsCommaSpace k.data then (splitCommaWs k.data).map (fun l => ⟨l⟩)
      else [k]
    | ks => ks
  keywords1.map (fun s => ⟨replaceCommas s.data⟩)

/-- `Docket.from_api` (src/rule_scout.py lines 36-68): normalise a
case-insensitive "not assigned" RIN to absent, run the keyword pipeline, and
fill in the derived url and lower-cased docket type. -/
def Docket.fromApi (d : DocketPayload) : Docket :=
  let rin : Option String :=
    match d.rin with
    | some r => if lowerStr r = "not assigned" then none else some r
    | none => none
  { id := d.id
    title := d.title
    url := "https://www.regulations.gov/docket/" ++ d.id
    type := lowerStr d.docketType
    keywords := docketKeywordsOf d.keywords
    rin := rin }

/-- The `FrAgency` dataclass (src/rule_scout.py lines 17-24), restricted to
the two fields `main` fills in (id and name). -/
structure FrAgency where
  id : Int
  name : String
deriving DecidableEq

/-- One entry of the federal-register `agencies` payload list: `id` may be
missing (the malformed listings noted at src/rule_scout.py lines 385-389) and
`name` may be missing (those listings carry only `raw_name`). -/
structure AgencyEntry where
  id : Option Int
  name : Option String
deriving DecidableEq

/-- The agency list comprehension of `main` (src/rule_scout.py lines
383-390): keep entries having an `id` key, reading their `id` and `name`;
an entry with an `id` but no `name` raises and fails the whole record, which
the model renders as `none`. -/
def parseAgencies : List AgencyEntry → Option (List FrAgency)
  | [] => some []
  | e :: rest =>
    match e.id with
    | none => parseAgencies rest
    | some i =>
      match e.name with
      | none => none
      | some n => (parseAgencies rest).map (fun tail => ⟨i, n⟩ :: tail)

/-- The discovery-mode comment-end derivation (src/rule_scout.py lines
447-455): sort the documents that carry a comment-end date by that date and
take the last; if none carries a date, fall back to the rule's own
`comment_end_date`.  The input is the list of per-document comment-end
dates. -/
def discoveryCommentEnd (docDates : List (Option Nat)) (fallback : Option Nat) : Option Nat :=
  let commentable : List Nat := sortNats (docDates.filterMap id)
  match commentable.getLast? with
  | some d => some d
  | none => fallback

/-- Modelled from the spec sentence behind claim C1: the display date is the
maximum over the set of document comment-end dates together with the rule's
fallback date when present, absent when that whole set is empty. -/
def specDisplayDate (docDates : List (Option Nat)) (fallback : Option Nat) : Option Nat :=
  (docDates.filterMap id ++ fallback.toList).max?

/-- Python `'; '.join(strings)` (src/rule_scout.py line 464). -/
def joinSemicolon : List String → List Char
  | [] => []
  | [s] => s.data
  | s :: rest => s.data ++ ';' :: ' ' :: joinSemicolon rest

/-- The authority field written in discovery mode (src/rule_scout.py lines
464-466): the semicolon-joined citations, cut to the first 1999 characters
followed by the marker string literal of line 466 when the joined string has
2000 characters or more.  That literal is the three characters U+00E2,
U+20AC, U+00A6 (source bytes C3 A2, E2 82 AC, C2 A6, a double-encoded
horizontal ellipsis), so the marker contributes three characters. -/
def authorityField (auth : List String) : List Char :=
  let s := joinSemicolon auth
  if 2000 ≤ s.length then s.take 1999 ++ ['â', '€', '¦'] else s

/-- The deduplicated sorted topic list `fr_topics` (src/rule_scout.py line
398), from the raw `topics` payload list. -/
def frTopicsOf (topicsRaw : List String) : List String := sortStrings topicsRaw.dedup

/-- The deduplicated sorted keyword list of discovery mode (src/rule_scout.py
lines 469-474): keywords of all dockets attached to the rule's documents. -/
def discoveryKeywords (dockets : List Docket) : List String :=
  sortStrings ((dockets.map Docket.keywords).flatten).dedup

/-- The discovery-mode Tags multi-select (src/rule_scout.py lines 546-553):
the topic list followed by the keyword list, each entry rewritten by
`re.sub(r', ', ' and ', ...)`. -/
def discoveryTags (topicsRaw : List String) (dockets : List Docket) : List String :=
  (frTopicsOf topicsRaw ++ discoveryKeywords dockets).map rewriteCommaSpaceStr

/-- Modelled from the spec sentence behind claim C7: the combined tag set is
the deduplicated union of topic tags and keywords, each tag rewritten by the
comma-plus-space to " and " substitution. -/
def specTagSet (topics keywords : Finset String) : Finset String :=
  (topics ∪ keywords).image rewriteCommaSpaceStr

/-- Segment builder of `notion_rich_text` (src/rule_scout.py lines 559-573):
while text remains and fewer than `n` segments were produced, emit the next
2000 characters. -/
def richTextSegments : Nat → List Char → List (List Char)
  | 0, _ => []
  | _ + 1, [] => []
  | n + 1, c :: rest => (c :: rest).take 2000 :: richTextSegments n ((c :: rest).drop 2000)

/-- `notion_rich_text` (src/rule_scout.py lines 559-573) at the level of the
segment contents: at most 100 segments of at most 2000 characters each. -/
def notionRichText (text : List Char) : List (List Char) := richTextSegments 100 text

/-- Minute truncation `replace(second=0, microsecond=0)`
(src/update-comment-date.py line 101) on a timestamp in seconds. -/
def truncMinute (t : Nat) : Nat := t / 60 * 60

/-- One summary entry of `find_documents_by_register_id` as consumed by the
refresh loop (src/update-comment-date.py lines 90-103): the document id, the
optional `docketId`, and the optional raw `commentEndDate`. -/
structure FoundDoc where
  id : String
  docketId : Option String
  commentEndDate : Option Nat
deriving DecidableEq

/-- The refreshed latest comment date (src/update-comment-date.py lines
89-103): seeded with the stored deadline, each fetched date is truncated to
the minute and replaces the accumulator only when strictly greater. -/
def latestCommentDate (old : Option Nat) (docs : List FoundDoc) : Option Nat :=
  docs.foldl
    (fun latest d =>
      match d.commentEndDate with
      | none => latest
      | some raw =>
        match latest with
        | none => some (truncMinute raw)
        | some l => if l < truncMinute raw then some (truncMinute raw) else some l)
    old

/-- Modelled from the spec sentence behind claim C3: the refreshed date is
the maximum of the previously stored date and all truncated fetched
per-document dates. -/
def specLatestDate (old : Option Nat) (docs : List FoundDoc) : Option Nat :=
  (old.toList ++ (docs.filterMap FoundDoc.commentEndDate).map truncMinute).max?

/-- The stored record state the refresh loop reads back from the destination
store (src/update-comment-date.py lines 75-83, 138, 150, 164): rich-text list
fields already decoded by `parse_rich_text_list` and multi-selects by
`parse_multiselect_set` (kept as lists; set-valued uses go through
`List.toFinset`). -/
structure PageState where
  docketDocs : List String
  dockets : List String
  keywords : List String
  topics : List String
  rins : List String
  commentDeadline : Option Nat
deriving DecidableEq

/-- `found_docs` (src/update-comment-date.py lines 87-92): ids of all fetched
documents, in fetch order. -/
def foundDocsOf (docs : List FoundDoc) : List String := docs.map FoundDoc.id

/-- `found_dockets` (src/update-comment-date.py lines 88-95): docket ids of
the fetched documents that have one, in fetch order. -/
def foundDocketsOf (docs : List FoundDoc) : List String :=
  docs.filterMap FoundDoc.docketId

/-- `new_keywords` (src/update-comment-date.py lines 129-134) as a list with
duplicates: the keywords of every found docket, each docket fetched and
parsed through `Docket.from_api`. -/
def newKeywordsOf (docs : List FoundDoc) (getDocket : String → DocketPayload) : List String :=
  ((foundDocketsOf docs).map (fun i => (Docket.fromApi (getDocket i)).keywords)).flatten

/-- `new_rins` (src/update-comment-date.py lines 130-136) as a list with
duplicates: the RINs the found dockets carry after parsing. -/
def newRinsOf (docs : List FoundDoc) (getDocket : String → DocketPayload) : List String :=
  (foundDocketsOf docs).filterMap (fun i => (Docket.fromApi (getDocket i)).rin)

/-- The "Docket Documents" update (src/update-comment-date.py lines 105-114):
emitted when the fetched id set differs from the stored id set, carrying the
sorted fetched ids. -/
def docUpdateOf (page : PageState) (docs : List FoundDoc) : Option (List String) :=
  if page.docketDocs.toFinset ≠ (foundDocsOf docs).toFinset
  then some (sortStrings (foundDocsOf docs)) else none

/-- The "Dockets" update (src/update-comment-date.py lines 115-124): emitted
when the fetched docket-id set differs from the stored one, carrying the
sorted fetched docket ids. -/
def dktUpdateOf (page : PageState) (docs : List FoundDoc) : Option (List String) :=
  if page.dockets.toFinset ≠ (foundDocketsOf docs).toFinset
  then some (sortStrings (foundDocketsOf docs)) else none

/-- The guard of the docket-metadata block (src/update-comment-date.py line
126): the static always-update flag, or a "Dockets" update was emitted. -/
def metaActive (always : Bool) (page : PageState) (docs : List FoundDoc) : Bool :=
  always || (dktUpdateOf page docs).isSome

/-- The "Docket Keywords" update (src/update-comment-date.py lines 138-148):
inside the metadata block, emitted when the stored keyword set differs from
the freshly computed one, carrying the sorted new keyword set. -/
def kwUpdateOf (always : Bool) (page : PageState) (docs : List FoundDoc)
    (getDocket : String → DocketPayload) : Option (List String) :=
  if metaActive always page docs
     ∧ page.keywords.toFinset ≠ (newKeywordsOf docs getDocket).toFinset
  then some (sortStrings (newKeywordsOf docs getDocket).dedup) else none

/-- The "Tags" update (src/update-comment-date.py lines 150-157): emitted
exactly when the keyword update is, carrying the sorted concatenation of the
stored topic set and the new keyword set, with no comma rewriting. -/
def tagsUpdateOf (always : Bool) (page : PageState) (docs : List FoundDoc)
    (getDocket : String → DocketPayload) : Option (List String) :=
  if metaActive always page docs
     ∧ page.keywords.toFinset ≠ (newKeywordsOf docs getDocket).toFinset
  then some (sortStrings (page.topics.dedup ++ (newKeywordsOf docs getDocket).dedup))
  else none

/-- The "RINs" update (src/update-comment-date.py lines 159-176): inside the
metadata block, emitted when the new RIN set has an element outside the
stored set or the stored set contains the literal "Not Assigned"; it carries
the sorted union of the new RINs with the stored RINs cleaned of
case-insensitive "not assigned" entries. -/
def rinsUpdateOf (always : Bool) (page : PageState) (docs : List FoundDoc)
    (getDocket : String → DocketPayload) : Option (List String) :=
  if metaActive always page docs
     ∧ ((newRinsOf docs getDocket).toFinset \ page.rins.toFinset ≠ ∅
        ∨ "Not Assigned" ∈ page.rins)
  then some (sortStrings
      ((newRinsOf docs getDocket)
        ++ page.rins.filter (fun r => lowerStr r ≠ "not assigned")).dedup)
  else none

/-- The "Comment End Date" update (src/update-comment-date.py lines 178-185):
emitted when the recomputed latest date differs from the stored one, carrying
the recomputed value (possibly absent). -/
def dateUpdateOf (page : PageState) (docs : List FoundDoc) : Option (Option Nat) :=
  if page.commentDeadline ≠ latestCommentDate page.commentDeadline docs
  then some (latestCommentDate page.commentDeadline docs) else none

/-- The sparse per-field update set one refresh iteration emits
(src/update-comment-date.py lines 72-189). -/
structure RefreshUpdates where
  docketDocuments : Option (List String)
  dockets : Option (List String)
  docketKeywords : Option (List String)
  tags : Option (List String)
  rins : Option (List String)
  commentEndDate : Option (Option Nat)
deriving DecidableEq

/-- One iteration of the refresh loop (src/update-comment-date.py lines
72-189), assembled from the per-field update definitions. -/
def refreshUpdates (always : Bool) (page : PageState) (docs : List FoundDoc)
    (getDocket : String → DocketPayload) : RefreshUpdates :=
  { docketDocuments := docUpdateOf page docs
    dockets := dktUpdateOf page docs
    docketKeywords := kwUpdateOf always page docs getDocket
    tags := tagsUpdateOf always page docs getDocket
    rins := rinsUpdateOf always page docs getDocket
    commentEndDate := dateUpdateOf page docs }

/-- The empty update set: `updates` stayed `{}` and line 187-189 of
src/update-comment-date.py issues no write. -/
def noUpdates : RefreshUpdates :=
  { docketDocuments := none, dockets := none, docketKeywords := none
    tags := none, rins := none, commentEndDate := none }

/-- The RIN set stored after one refresh iteration: the emitted update's
value when one was issued, otherwise the unchanged stored set. -/
def rinsAfter (always : Bool) (page : PageState) (docs : List FoundDoc)
    (getDocket : String → DocketPayload) : Finset String :=
  match rinsUpdateOf always page docs getDocket with
  | some l => l.toFinset
  | none => page.rins.toFinset

/-- The stored comment deadline after one refresh iteration: the emitted
update's value when one was issued, otherwise the unchanged stored value. -/
def deadlineAfter (page : PageState) (docs : List FoundDoc) : Option Nat :=
  match dateUpdateOf page docs with
  | some u => u
  | none => page.commentDeadline

/-! ### Helper lemmas -/

/-- Sorting a list of strings does not change its element set. -/
theorem toFinset_sortStrings (l : List String) : (sortStrings l).toFinset = l.toFinset :=
  List.toFinset_eq_of_perm _ _ (List.perm_insertionSort _ _)

/-- Deduplicating a list does not change its element set. -/
theorem toFinset_dedupList {α : Type} [DecidableEq α] (l : List α) :
    l.dedup.toFinset = l.toFinset := by
  ext a
  simp [List.mem_dedup]

/-- A comma never survives `replaceCommas`. -/
theorem comma_not_mem_replaceCommas (l : List Char) : ',' ∉ replaceCommas l := by
  intro h
  rcases List.mem_map.mp h with ⟨c, _, hc⟩
  by_cases hcc : c = ',' <;> simp [hcc] at hc

/-- A RIN produced by `Docket.fromApi` is never the "not assigned"
placeholder (case-insensitively). -/
theorem fromApi_rin_not_assigned (d : DocketPayload) (r : String)
    (h : (Docket.fromApi d).rin = some r) : lowerStr r ≠ "not assigned" := by
  unfold Docket.fromApi at h
  cases hd : d.rin with
  | none => simp [hd] at h
  | some r0 =>
    simp only [hd] at h
    by_cases hlow : lowerStr r0 = "not assigned"
    · simp [hlow] at h
    · simp [hlow] at h
      simpa [h] using hlow

/-- No RIN gathered during refresh is the "not assigned" placeholder. -/
theorem newRins_not_assigned (docs : List FoundDoc) (getDocket : String → DocketPayload)
    (r : String) (h : r ∈ newRinsOf docs getDocket) : lowerStr r ≠ "not assigned" := by
  rcases List.mem_filterMap.mp h with ⟨i, _, hi⟩
  exact fromApi_rin_not_assigned _ _ hi

/-! ### Claim C6: authority string truncation -/

/-- C6 (code bug): on a 2001-character authority string the program
truncates to the first 1999 characters and appends the three-character
marker of src/rule_scout.py line 466, yielding 2002 characters — not 1999
plus a single ellipsis within the 2000-character budget.  The surrounding
comment (lines 457-463) states the purpose of the truncation is to fit the
destination's 2000-character segment limit, which 2002 characters defeat, so
the claim describes the intent and the double-encoded literal is the slip. -/
theorem authority_mojibake_overflow :
    authorityField [(⟨List.replicate 2001 'a'⟩ : String)]
      = List.replicate 1999 'a' ++ ['â', '€', '¦']
    ∧ (authorityField [(⟨List.replicate 2001 'a'⟩ : String)]).length = 2002 := by
  have hjoin : joinSemicolon [(⟨List.replicate 2001 'a'⟩ : String)]
      = List.replicate 2001 'a' := rfl
  have hlen : 2000 ≤ (joinSemicolon [(⟨List.replicate 2001 'a'⟩ : String)]).length := by
    rw [hjoin, List.length_replicate]
    norm_num
  have hval : authorityField [(⟨List.replicate 2001 'a'⟩ : String)]
      = List.replicate 1999 'a' ++ ['â', '€', '¦'] := by
    unfold authorityField
    rw [if_pos hlen, hjoin, List.take_replicate]
    norm_num
  refine ⟨hval, ?_⟩
  rw [hval, List.length_append, List.length_replicate]
  rfl

/-! ### Claim C8: rich-text segmentation -/

/-- Each emitted rich-text segment holds at most 2000 characters. -/
theorem richTextSegments_each_le (n : Nat) (s : List Char) (seg : List Char)
    (h : seg ∈ richTextSegments n s) : seg.length ≤ 2000 := by
  induction n generalizing s with
  | zero => simp [richTextSegments] at h
  | succ n ih =>
    cases s with
    | nil => simp [richTextSegments] at h
    | cons c rest =>
      simp only [richTextSegments, List.mem_cons] at h
      rcases h with h | h
      · subst h
        exact List.length_take_le 2000 (c :: rest)
      · exact ih _ h

/-- At most `n` rich-text segments are emitted. -/
theorem richTextSegments_count_le (n : Nat) (s : List Char) :
    (richTextSegments n s).length ≤ n := by
  induction n generalizing s with
  | zero => simp [richTextSegments]
  | succ n ih =>
    cases s with
    | nil => simp [richTextSegments]
    | cons c rest =>
      simp only [richTextSegments, List.length_cons]
      exact Nat.succ_le_succ (ih _)

/-- The concatenation of the emitted segments is exactly the first
`2000 * n` characters of the input. -/
theorem richTextSegments_flatten (n : Nat) (s : List Char) :
    (richTextSegments n s).flatten = s.take (2000 * n) := by
  induction n generalizing s with
  | zero => simp [richTextSegments]
  | succ n ih =>
    cases s with
    | nil => simp [richTextSegments]
    | cons c rest =>
      simp only [richTextSegments, List.flatten_cons, ih]
      have hm : 2000 * (n + 1) = 2000 + 2000 * n := by ring
      rw [hm, List.take_add]

/-- C8 (amended): every rich-text segment has at most 2000 characters, at
most 100 segments are produced, and the emitted text is exactly the first
200000 characters of the input — the overflow is silently dropped. -/
theorem rich_text_caps (s : List Char) :
    (∀ seg ∈ notionRichText s, seg.length ≤ 2000)
    ∧ (notionRichText s).length ≤ 100
    ∧ (notionRichText s).flatten = s.take 200000 := by
  refine ⟨fun seg h => richTextSegments_each_le 100 s seg h,
          richTextSegments_count_le 100 s, ?_⟩
  have h := richTextSegments_flatten 100 s
  norm_num at h
  exact h

/-- Witness for C8 at a concrete short input. -/
theorem rich_text_caps_witness :
    ("ab".data.length ≤ 2000) ∧ (notionRichText "ab".data).length ≤ 100 :=
  ⟨(rich_text_caps "ab".data).1 "ab".data (by decide), (rich_text_caps "ab".data).2.1⟩

/-- Counterexample for C8 as stated: on an input of 200001 characters the
encoder emits exactly the first 200000 input characters — a strict prefix of
the input containing no marker of any kind (every emitted character is the
input character 'a'). -/
theorem rich_text_no_marker :
    (notionRichText (List.replicate 200001 'a')).flatten = List.replicate 200000 'a'
    ∧ (notionRichText (List.replicate 200001 'a')).flatten ≠ List.replicate 200001 'a'
    ∧ ∀ c ∈ (notionRichText (List.replicate 200001 'a')).flatten, c = 'a' := by
  have h := richTextSegments_flatten 100 (List.replicate 200001 'a')
  norm_num at h
  have h1 : (notionRichText (List.replicate 200001 'a')).flatten
      = List.replicate 200000 'a' := by rw [notionRichText, h]
  refine ⟨h1, ?_, ?_⟩
  · rw [h1]
    intro hEq
    have := congrArg List.length hEq
    rw [List.length_replicate, List.length_replicate] at this
    omega
  · intro c hc
    rw [h1] at hc
    exact List.eq_of_mem_replicate hc

/-! ### Claim C9: agency entries missing an id -/

/-- C9: an agency entry with no id is dropped without affecting the parse of
the remaining entries (in particular it never fails the record), and when
every entry that has an id also has a name, parsing succeeds with exactly
the id-bearing entries, keeping their ids and names in order. -/
theorem agencies_soft_skip :
    (∀ (pre post : List AgencyEntry) (nm : Option String),
       parseAgencies (pre ++ ⟨none, nm⟩ :: post) = parseAgencies (pre ++ post))
    ∧ (∀ l : List AgencyEntry, (∀ e ∈ l, e.id.isSome → e.name.isSome) →
       parseAgencies l = some (l.filterMap (fun e =>
         match e.id, e.name with
         | some i, some n => some ⟨i, n⟩
         | _, _ => none))) := by
  constructor
  · intro pre post nm
    induction pre with
    | nil => rfl
    | cons e rest ih =>
      cases he : e.id with
      | none => simp [parseAgencies, he, ih]
      | some i =>
        cases hn : e.name with
        | none => simp [parseAgencies, he, hn]
        | some n => simp [parseAgencies, he, hn, ih]
  · intro l hl
    induction l with
    | nil => rfl
    | cons e rest ih =>
      have hrest : ∀ e ∈ rest, e.id.isSome → e.name.isSome :=
        fun x hx => hl x (List.mem_cons_of_mem e hx)
      cases he : e.id with
      | none => simp [parseAgencies, he, ih hrest, List.filterMap_cons]
      | some i =>
        have hn : e.name.isSome := hl e (List.mem_cons_self e rest) (by simp [he])
        rcases Option.isSome_iff_exists.mp hn with ⟨n, hn'⟩
        simp [parseAgencies, he, hn', ih hrest, List.filterMap_cons]

/-- Witness for C9 at the spec's end-to-end scenario: one malformed entry
carrying neither id nor name, one entry with id 17 and a name. -/
theorem agencies_soft_skip_witness :
    parseAgencies [⟨none, none⟩, ⟨some 17, some "Test Agency"⟩]
      = some [⟨17, "Test Agency"⟩] := by
  have h := agencies_soft_skip.2 [⟨none, none⟩, ⟨some 17, some "Test Agency"⟩] (by decide)
  rw [h]
  rfl

/-! ### Claim C5: keyword parsing -/

/-- The split scanner always produces at least one segment. -/
theorem splitGo_ne_nil (l : List Char) : ∀ inSep cur, 1 ≤ (splitGo inSep cur l).length := by
  induction l with
  | nil => intro inSep cur; simp [splitGo]
  | cons c rest ih =>
    intro inSep cur
    simp only [splitGo]
    by_cases h1 : (inSep && isPySpace c) = true
    · rw [if_pos h1]; exact ih _ _
    · rw [if_neg h1]
      by_cases h2 : (c = ',' && headSpace rest) = true
      · rw [if_pos h2]; simp
      · rw [if_neg h2]; exact ih _ _

/-- When the input still contains a comma-space pair, the split scanner
produces at least two segments. -/
theorem splitGo_two (l : List Char) :
    ∀ inSep cur, containsCommaSpace l = true → 2 ≤ (splitGo inSep cur l).length := by
  induction l with
  | nil => intro _ _ h; simp [containsCommaSpace] at h
  | cons c rest ih =>
    intro inSep cur h
    simp only [splitGo]
    by_cases h1 : (inSep && isPySpace c) = true
    · rw [if_pos h1]
      have hcnospace : c ≠ ',' := by
        intro hc
        subst hc
        simp [isPySpace] at h1
      have hrest : containsCommaSpace rest = true := by
        simp only [containsCommaSpace, Bool.or_eq_true] at h
        rcases h with h | h
        · exfalso
          cases rest with
          | nil => simp at h
          | cons b t => simp at h; exact hcnospace h.1
        · exact h
      exact ih _ _ hrest
    · rw [if_neg h1]
      by_cases h2 : (c = ',' && headSpace rest) = true
      · rw [if_pos h2]
        have := splitGo_ne_nil rest true []
        simp only [List.length_cons]
        omega
      · rw [if_neg h2]
        have hrest : containsCommaSpace rest = true := by
          simp only [containsCommaSpace, Bool.or_eq_true] at h
          rcases h with h | h
          · exfalso
            cases rest with
            | nil => simp at h
            | cons b t =>
              simp only [Bool.and_eq_true, decide_eq_true_eq] at h
              apply h2
              rw [h.1]
              simp [headSpace, isPySpace, h.2]
          · exact h
        exact ih _ _ hrest

/-- C5 (amended): each raw keyword entry is stripped of leading and trailing
commas and spaces; a single-entry list whose stripped string still contains a
comma-plus-space pair is split on comma-plus-whitespace into at least two
keywords (not re-trimmed); a single keyword whose commas have no following
whitespace stays one keyword; and every emitted keyword has its commas
replaced by semicolons, so no emitted keyword contains a comma. -/
theorem docket_keywords_amended :
    (∀ (d : DocketPayload) (s : String), d.keywords = some [s] →
       containsCommaSpace (pyStrip s.data) = true →
       (Docket.fromApi d).keywords
         = (splitCommaWs (pyStrip s.data)).map (fun l => (⟨replaceCommas l⟩ : String))
       ∧ 2 ≤ (Docket.fromApi d).keywords.length)
    ∧ (∀ (d : DocketPayload) (s : String), d.keywords = some [s] →
       containsCommaSpace (pyStrip s.data) = false →
       (Docket.fromApi d).keywords = [(⟨replaceCommas (pyStrip s.data)⟩ : String)])
    ∧ (∀ (d : DocketPayload) (k : String), k ∈ (Docket.fromApi d).keywords → ',' ∉ k.data) := by
  have hkw : ∀ d : DocketPayload, (Docket.fromApi d).keywords = docketKeywordsOf d.keywords :=
    fun d => rfl
  refine ⟨?_, ?_, ?_⟩
  · intro d s hks hcs
    rw [hkw, hks]
    have heq : docketKeywordsOf (some [s])
        = (splitCommaWs (pyStrip s.data)).map (fun l => (⟨replaceCommas l⟩ : String)) := by
      show ((if containsCommaSpace (pyStrip s.data) then
              (splitCommaWs (pyStrip s.data)).map (fun l => (⟨l⟩ : String))
             else [stripStr s]).map (fun s => (⟨replaceCommas s.data⟩ : String)))
          = (splitCommaWs (pyStrip s.data)).map (fun l => (⟨replaceCommas l⟩ : String))
      rw [if_pos hcs, List.map_map]
      rfl
    refine ⟨heq, ?_⟩
    rw [heq, List.length_map]
    exact splitGo_two _ _ _ hcs
  · intro d s hks hcs
    rw [hkw, hks]
    show ((if containsCommaSpace (pyStrip s.data) then
            (splitCommaWs (pyStrip s.data)).map (fun l => (⟨l⟩ : String))
           else [stripStr s]).map (fun s => (⟨replaceCommas s.data⟩ : String)))
        = [(⟨replaceCommas (pyStrip s.data)⟩ : String)]
    rw [if_neg (by simp [hcs])]
    rfl
  · intro d k hk
    rw [hkw] at hk
    unfold docketKeywordsOf at hk
    rcases List.mem_map.mp hk with ⟨s', _, hs'⟩
    intro hcomma
    rw [← hs'] at hcomma
    exact comma_not_mem_replaceCommas _ hcomma

/-- Counterexample for C5 as stated: the chemical-nomenclature keyword is
kept as a single keyword but is not yielded unchanged (its commas become
semicolons), and a keyword produced by splitting is not re-trimmed (it can
keep a trailing space). -/
theorem docket_keywords_cex :
    (Docket.fromApi ⟨"D", "T", "Rulemaking", some ["1,2,3,4-tetrafluoropropene"], none⟩).keywords
      = ["1;2;3;4-tetrafluoropropene"]
    ∧ (Docket.fromApi ⟨"D", "T", "Rulemaking", some ["1,2,3,4-tetrafluoropropene"], none⟩).keywords
      ≠ ["1,2,3,4-tetrafluoropropene"]
    ∧ (Docket.fromApi ⟨"D", "T", "Rulemaking", some ["a ,  b"], none⟩).keywords
      = ["a ", "b"] := by
  decide

/-- Witness for C5 at the spec's comma-plus-space example. -/
theorem docket_keywords_witness :
    (Docket.fromApi ⟨"D", "T", "Rulemaking", some ["term-a, term-b"], none⟩).keywords
      = (splitCommaWs (pyStrip "term-a, term-b".data)).map (fun l => (⟨replaceCommas l⟩ : String))
    ∧ 2 ≤ (Docket.fromApi ⟨"D", "T", "Rulemaking", some ["term-a, term-b"], none⟩).keywords.length :=
  docket_keywords_amended.1 ⟨"D", "T", "Rulemaking", some ["term-a, term-b"], none⟩
    "term-a, term-b" rfl (by decide)

/-! ### Claims C1, C3, C10: comment-end date aggregation -/

/-- Folding `max` from any seed is invariant under permutation of the
list. -/
theorem foldl_max_perm {l₁ l₂ : List Nat} (h : List.Perm l₁ l₂) :
    ∀ a : Nat, l₁.foldl max a = l₂.foldl max a := by
  induction h with
  | nil => intro a; rfl
  | cons x _ ih => intro a; simp only [List.foldl_cons]; exact ih _
  | swap x y t =>
    intro a
    simp only [List.foldl_cons]
    rw [Nat.max_right_comm]
  | trans _ _ ih₁ ih₂ => intro a; rw [ih₁, ih₂]

/-- `List.max?` is invariant under permutation. -/
theorem max?_perm {l₁ l₂ : List Nat} (h : List.Perm l₁ l₂) : l₁.max? = l₂.max? := by
  cases l₁ with
  | nil =>
    have : l₂ = [] := h.nil_eq.symm
    rw [this]
  | cons a t =>
    cases l₂ with
    | nil => exact absurd h.symm.nil_eq (by simp)
    | cons b u =>
      show some (t.foldl max a) = some (u.foldl max b)
      have h1 : (a :: t).foldl max 0 = (b :: u).foldl max 0 := foldl_max_perm h 0
      simp only [List.foldl_cons, Nat.zero_max] at h1
      rw [h1]

/-- The last element of a list sorted ascending is its maximum. -/
theorem sorted_getLast?_eq_max? :
    ∀ l : List Nat, List.Sorted (· ≤ ·) l → l.getLast? = l.max? := by
  intro l
  induction l with
  | nil => intro _; rfl
  | cons a t ih =>
    intro h
    cases t with
    | nil => rfl
    | cons b u =>
      have hab : a ≤ b := (List.sorted_cons.mp h).1 b (by simp)
      have ht : List.Sorted (· ≤ ·) (b :: u) := (List.sorted_cons.mp h).2
      rw [List.getLast?_cons_cons, ih ht]
      show (b :: u).max? = (a :: b :: u).max?
      simp only [List.max?, List.foldl_cons]
      rw [Nat.max_eq_right hab]

/-- Sorting then taking the last element computes the maximum. -/
theorem getLast?_sortNats (l : List Nat) : (sortNats l).getLast? = l.max? := by
  rw [sortNats, sorted_getLast?_eq_max? _ (List.sorted_insertionSort _ l)]
  exact max?_perm (List.perm_insertionSort _ l)

/-- Prepending the binary maximum of two values computes the same list
maximum as prepending both values. -/
theorem max?_cons_max (a b : Nat) (L : List Nat) :
    ((max a b) :: L).max? = (a :: b :: L).max? := by
  simp [List.max?]

/-- C1 (amended): the discovery-mode Comment End Date is the maximum of the
document comment-end dates when at least one document carries a date, the
rule's fallback date otherwise, and it is absent exactly when no document
carries a date and the fallback is also absent. -/
theorem discovery_date_amended (docDates : List (Option Nat)) (fallback : Option Nat) :
    (docDates.filterMap id = [] → discoveryCommentEnd docDates fallback = fallback)
    ∧ (∀ m, (docDates.filterMap id).max? = some m →
        discoveryCommentEnd docDates fallback = some m)
    ∧ (discoveryCommentEnd docDates fallback = none
        ↔ docDates.filterMap id = [] ∧ fallback = none) := by
  have key : discoveryCommentEnd docDates fallback
      = match (docDates.filterMap id).max? with
        | some m => some m
        | none => fallback := by
    show (match (sortNats (docDates.filterMap id)).getLast? with
          | some d => some d
          | none => fallback) = _
    rw [getLast?_sortNats]
  refine ⟨?_, ?_, ?_⟩
  · intro h
    rw [key, h]
    rfl
  · intro m hm
    rw [key, hm]
  · rw [key]
    cases hmax : (docDates.filterMap id).max? with
    | none =>
      have hnil : docDates.filterMap id = [] := by
        cases hL : docDates.filterMap id with
        | nil => rfl
        | cons a t => rw [hL] at hmax; simp [List.max?] at hmax
      simp [hnil]
    | some m =>
      constructor
      · intro h
        simp at h
      · rintro ⟨h1, _⟩
        rw [h1] at hmax
        simp [List.max?] at hmax

/-- Counterexample for C1 as stated: with one document date 1 and fallback
date 2 the code emits 1 (the fallback is ignored when any document carries a
date), while the claimed maximum over the union is 2. -/
theorem discovery_date_cex :
    discoveryCommentEnd [some 1] (some 2) = some 1
    ∧ specDisplayDate [some 1] (some 2) = some 2
    ∧ discoveryCommentEnd [some 1] (some 2) ≠ specDisplayDate [some 1] (some 2) := by
  decide

/-- Witness for C1 (amended) at a concrete mixed input. -/
theorem discovery_date_witness :
    discoveryCommentEnd [some 5, none, some 9] (some 7) = some 9 :=
  (discovery_date_amended [some 5, none, some 9] (some 7)).2.1 9 (by decide)

/-- The refresh date fold agrees with the maximum over the seed and the
truncated fetched dates. -/
theorem latest_eq_spec :
    ∀ (docs : List FoundDoc) (old : Option Nat),
      latestCommentDate old docs = specLatestDate old docs := by
  intro docs
  induction docs with
  | nil =>
    intro old
    cases old with
    | none => rfl
    | some o => rfl
  | cons d t ih =>
    intro old
    cases hd : d.commentEndDate with
    | none =>
      have hstep : latestCommentDate old (d :: t) = latestCommentDate old t := by
        simp only [latestCommentDate, List.foldl_cons, hd]
      rw [hstep, ih]
      unfold specLatestDate
      rw [List.filterMap_cons_none hd]
    | some raw =>
      cases old with
      | none =>
        have hstep : latestCommentDate none (d :: t)
            = latestCommentDate (some (truncMinute raw)) t := by
          simp only [latestCommentDate, List.foldl_cons, hd]
        rw [hstep, ih]
        unfold specLatestDate
        rw [List.filterMap_cons_some hd]
        rfl
      | some l =>
        have hif : (if l < truncMinute raw then some (truncMinute raw) else some l)
            = some (max l (truncMinute raw)) := by
          rcases Nat.lt_or_ge l (truncMinute raw) with h | h
          · rw [if_pos h, Nat.max_eq_right h.le]
          · rw [if_neg (Nat.not_lt.mpr h), Nat.max_eq_left h]
        have hstep : latestCommentDate (some l) (d :: t)
            = latestCommentDate (some (max l (truncMinute raw))) t := by
          simp only [latestCommentDate, List.foldl_cons, hd, hif]
        rw [hstep, ih]
        unfold specLatestDate
        rw [List.filterMap_cons_some hd]
        show ((max l (truncMinute raw)) :: _).max? = _
        rw [max?_cons_max]
        rfl

/-- Starting the refresh fold from a present date always produces a present
date at least as large. -/
theorem latest_ge_old :
    ∀ (docs : List FoundDoc) (o : Nat),
      ∃ m, latestCommentDate (some o) docs = some m ∧ o ≤ m := by
  intro docs
  induction docs with
  | nil => intro o; exact ⟨o, rfl, Nat.le_refl o⟩
  | cons d t ih =>
    intro o
    cases hd : d.commentEndDate with
    | none =>
      have hstep : latestCommentDate (some o) (d :: t) = latestCommentDate (some o) t := by
        simp only [latestCommentDate, List.foldl_cons, hd]
      rw [hstep]
      exact ih o
    | some raw =>
      by_cases hlt : o < truncMinute raw
      · have hstep : latestCommentDate (some o) (d :: t)
            = latestCommentDate (some (truncMinute raw)) t := by
          simp only [latestCommentDate, List.foldl_cons, hd, if_pos hlt]
        rw [hstep]
        obtain ⟨m, hm, hom⟩ := ih (truncMinute raw)
        exact ⟨m, hm, Nat.le_trans hlt.le hom⟩
      · have hstep : latestCommentDate (some o) (d :: t) = latestCommentDate (some o) t := by
          simp only [latestCommentDate, List.foldl_cons, hd, if_neg hlt]
        rw [hstep]
        exact ih o

/-- C3: the refreshed comment-end date equals the maximum of the previously
stored date and all minute-truncated fetched per-document dates, and in
particular it is never earlier than a present stored date. -/
theorem refresh_latest_date (old : Option Nat) (docs : List FoundDoc) :
    latestCommentDate old docs = specLatestDate old docs
    ∧ ∀ o : Nat, old = some o →
        ∃ m, latestCommentDate old docs = some m ∧ o ≤ m := by
  refine ⟨latest_eq_spec docs old, ?_⟩
  intro o ho
  rw [ho]
  exact latest_ge_old docs o

/-- Witness for C3 at a concrete stored date and one fetched document whose
date 185 truncates to 180. -/
theorem refresh_latest_date_witness :
    latestCommentDate (some 120) [⟨"X", none, some 185⟩]
      = specLatestDate (some 120) [⟨"X", none, some 185⟩]
    ∧ ∃ m, latestCommentDate (some 120) [⟨"X", none, some 185⟩] = some m ∧ 120 ≤ m :=
  ⟨(refresh_latest_date (some 120) [⟨"X", none, some 185⟩]).1,
   (refresh_latest_date (some 120) [⟨"X", none, some 185⟩]).2 120 rfl⟩

/-- C10: a refresh can never move the Comment End Date from present to
absent — an emitted date update carrying "absent" forces the stored date to
have been absent already, and a present stored date stays present after the
iteration, for every fetched document set. -/
theorem refresh_date_never_cleared (always : Bool) (page : PageState)
    (docs : List FoundDoc) (getDocket : String → DocketPayload) :
    ((refreshUpdates always page docs getDocket).commentEndDate = some none →
       page.commentDeadline = none)
    ∧ (page.commentDeadline.isSome → (deadlineAfter page docs).isSome) := by
  constructor
  · intro h
    have hdu : dateUpdateOf page docs = some none := h
    unfold dateUpdateOf at hdu
    by_cases hc : page.commentDeadline ≠ latestCommentDate page.commentDeadline docs
    · rw [if_pos hc] at hdu
      have hlat : latestCommentDate page.commentDeadline docs = none := Option.some.inj hdu
      cases hpg : page.commentDeadline with
      | none => rfl
      | some o =>
        obtain ⟨m, hm, _⟩ := latest_ge_old docs o
        rw [hpg] at hlat
        rw [hm] at hlat
        exact absurd hlat (by simp)
    · rw [if_neg hc] at hdu
      exact absurd hdu (by simp)
  · intro h
    cases hpg : page.commentDeadline with
    | none => rw [hpg] at h; exact absurd h (by simp)
    | some o =>
      obtain ⟨m, hm, _⟩ := latest_ge_old docs o
      unfold deadlineAfter dateUpdateOf
      rw [hpg, hm]
      by_cases hne : (some o : Option Nat) ≠ some m
      · rw [if_pos hne]
        rfl
      · rw [if_neg hne]
        rfl

/-- Witness for C10 at a concrete page with a present stored date and a
fetched document carrying no date. -/
theorem refresh_date_never_cleared_witness :
    (deadlineAfter ⟨[], [], [], [], [], some 60⟩ [⟨"X", none, none⟩]).isSome :=
  (refresh_date_never_cleared false ⟨[], [], [], [], [], some 60⟩ [⟨"X", none, none⟩]
    (fun _ => ⟨"", "", "", none, none⟩)).2 rfl

/-! ### Claims C2, C4, C7: refresh set reconciliation -/

/-- Membership in a sorted string list. -/
theorem mem_sortStrings {a : String} {l : List String} : a ∈ sortStrings l ↔ a ∈ l := by
  unfold sortStrings
  exact List.mem_insertionSort strLe

/-- Filtering a string list by the not-a-placeholder predicate commutes with
forming the element set. -/
theorem rins_filter_toFinset (l : List String) :
    (l.filter (fun r => lowerStr r ≠ "not assigned")).toFinset
      = l.toFinset.filter (fun r => lowerStr r ≠ "not assigned") := by
  ext a
  simp [List.mem_filter]

/-- The value an emitted RINs update carries. -/
theorem rinsUpdate_value (always : Bool) (page : PageState) (docs : List FoundDoc)
    (getDocket : String → DocketPayload) (l : List String)
    (h : rinsUpdateOf always page docs getDocket = some l) :
    l = sortStrings (((newRinsOf docs getDocket)
          ++ page.rins.filter (fun r => lowerStr r ≠ "not assigned")).dedup) := by
  unfold rinsUpdateOf at h
  split at h
  · exact (Option.some.inj h).symm
  · exact absurd h (by simp)

/-- C2: after every refresh iteration the stored RIN set contains every old
RIN that is not a case-insensitive "not assigned" placeholder, and an emitted
RINs update is exactly the union of the freshly found RINs with the cleaned
old RINs. -/
theorem rins_monotonic (always : Bool) (page : PageState) (docs : List FoundDoc)
    (getDocket : String → DocketPayload) :
    (page.rins.toFinset.filter (fun r => lowerStr r ≠ "not assigned")
       ⊆ rinsAfter always page docs getDocket)
    ∧ (∀ l, rinsUpdateOf always page docs getDocket = some l →
        l.toFinset = (newRinsOf docs getDocket).toFinset
          ∪ (page.rins.filter (fun r => lowerStr r ≠ "not assigned")).toFinset) := by
  have hval : ∀ l, rinsUpdateOf always page docs getDocket = some l →
      l.toFinset = (newRinsOf docs getDocket).toFinset
        ∪ (page.rins.filter (fun r => lowerStr r ≠ "not assigned")).toFinset := by
    intro l h
    rw [rinsUpdate_value always page docs getDocket l h]
    rw [toFinset_sortStrings, toFinset_dedupList, List.toFinset_append]
  refine ⟨?_, hval⟩
  unfold rinsAfter
  cases hr : rinsUpdateOf always page docs getDocket with
  | none => exact Finset.filter_subset _ _
  | some l =>
    show page.rins.toFinset.filter (fun r => lowerStr r ≠ "not assigned") ⊆ l.toFinset
    rw [hval l hr, ← rins_filter_toFinset]
    exact Finset.subset_union_right

/-- Witness for C2 at a concrete page whose stored RINs hold only the
placeholder, with one found docket carrying a real RIN. -/
theorem rins_monotonic_witness :
    (["1234-AB00"] : List String).toFinset
      = (newRinsOf [⟨"X", some "D1", none⟩]
          (fun _ => ⟨"D1", "T", "Rulemaking", none, some "1234-AB00"⟩)).toFinset
        ∪ ((⟨[], [], [], [], ["Not Assigned"], none⟩ : PageState).rins.filter
            (fun r => lowerStr r ≠ "not assigned")).toFinset :=
  (rins_monotonic false ⟨[], [], [], [], ["Not Assigned"], none⟩ [⟨"X", some "D1", none⟩]
    (fun _ => ⟨"D1", "T", "Rulemaking", none, some "1234-AB00"⟩)).2
    ["1234-AB00"] (by decide)

/-- No update is emitted for "Docket Documents" when the id sets agree. -/
theorem docUpdate_none_of_eq (page : PageState) (docs : List FoundDoc)
    (h : page.docketDocs.toFinset = (foundDocsOf docs).toFinset) :
    docUpdateOf page docs = none := by
  unfold docUpdateOf
  rw [if_neg (not_not_intro h)]

/-- No update is emitted for "Dockets" when the docket-id sets agree. -/
theorem dktUpdate_none_of_eq (page : PageState) (docs : List FoundDoc)
    (h : page.dockets.toFinset = (foundDocketsOf docs).toFinset) :
    dktUpdateOf page docs = none := by
  unfold dktUpdateOf
  rw [if_neg (not_not_intro h)]

/-- No date update is emitted when the recomputed date equals the stored
one. -/
theorem dateUpdate_none_of_eq (page : PageState) (docs : List FoundDoc)
    (h : latestCommentDate page.commentDeadline docs = page.commentDeadline) :
    dateUpdateOf page docs = none := by
  unfold dateUpdateOf
  rw [if_neg (not_not_intro h.symm)]

/-- The literal "Not Assigned" lowers to the placeholder. -/
theorem lower_not_assigned : lowerStr "Not Assigned" = "not assigned" := by decide

/-- C4: when the fetched document-id set equals the stored one (as sets) no
"Docket Documents" update is emitted; and when the whole fetched state equals
the stored state — same document set, same docket set, recomputed date equal
to the stored date, and (when the metadata block can run) same recomputed
keyword and RIN sets — the emitted update set is empty, so no write is
issued. -/
theorem refresh_frame :
    (∀ (always : Bool) (page : PageState) (docs : List FoundDoc)
        (getDocket : String → DocketPayload),
        page.docketDocs.toFinset = (foundDocsOf docs).toFinset →
        (refreshUpdates always page docs getDocket).docketDocuments = none)
    ∧ (∀ (page : PageState) (docs : List FoundDoc) (getDocket : String → DocketPayload),
        page.docketDocs.toFinset = (foundDocsOf docs).toFinset →
        page.dockets.toFinset = (foundDocketsOf docs).toFinset →
        latestCommentDate page.commentDeadline docs = page.commentDeadline →
        refreshUpdates false page docs getDocket = noUpdates)
    ∧ (∀ (always : Bool) (page : PageState) (docs : List FoundDoc)
        (getDocket : String → DocketPayload),
        page.docketDocs.toFinset = (foundDocsOf docs).toFinset →
        page.dockets.toFinset = (foundDocketsOf docs).toFinset →
        latestCommentDate page.commentDeadline docs = page.commentDeadline →
        page.keywords.toFinset = (newKeywordsOf docs getDocket).toFinset →
        page.rins.toFinset = (newRinsOf docs getDocket).toFinset →
        refreshUpdates always page docs getDocket = noUpdates) := by
  refine ⟨?_, ?_, ?_⟩
  · intro always page docs getDocket h1
    exact docUpdate_none_of_eq page docs h1
  · intro page docs getDocket h1 h2 h3
    have hmeta : metaActive false page docs = false := by
      unfold metaActive
      rw [dktUpdate_none_of_eq page docs h2]
      rfl
    have hkw : kwUpdateOf false page docs getDocket = none := by
      unfold kwUpdateOf
      rw [if_neg]
      intro hc
      rw [hmeta] at hc
      exact absurd hc.1 (by simp)
    have htags : tagsUpdateOf false page docs getDocket = none := by
      unfold tagsUpdateOf
      rw [if_neg]
      intro hc
      rw [hmeta] at hc
      exact absurd hc.1 (by simp)
    have hrins : rinsUpdateOf false page docs getDocket = none := by
      unfold rinsUpdateOf
      rw [if_neg]
      intro hc
      rw [hmeta] at hc
      exact absurd hc.1 (by simp)
    unfold refreshUpdates noUpdates
    rw [docUpdate_none_of_eq page docs h1, dktUpdate_none_of_eq page docs h2,
        dateUpdate_none_of_eq page docs h3, hkw, htags, hrins]
  · intro always page docs getDocket h1 h2 h3 h4 h5
    have hkw : kwUpdateOf always page docs getDocket = none := by
      unfold kwUpdateOf
      rw [if_neg]
      intro hc
      exact hc.2 h4
    have htags : tagsUpdateOf always page docs getDocket = none := by
      unfold tagsUpdateOf
      rw [if_neg]
      intro hc
      exact hc.2 h4
    have hna : "Not Assigned" ∉ page.rins := by
      intro hmem
      have hmem2 : ("Not Assigned" : String) ∈ (newRinsOf docs getDocket).toFinset := by
        rw [← h5]
        exact List.mem_toFinset.mpr hmem
      exact newRins_not_assigned docs getDocket _ (List.mem_toFinset.mp hmem2)
        lower_not_assigned
    have hrins : rinsUpdateOf always page docs getDocket = none := by
      unfold rinsUpdateOf
      rw [if_neg]
      intro hc
      rcases hc.2 with hdiff | hmem
      · rw [h5, Finset.sdiff_self] at hdiff
        exact hdiff rfl
      · exact hna hmem
    unfold refreshUpdates noUpdates
    rw [docUpdate_none_of_eq page docs h1, dktUpdate_none_of_eq page docs h2,
        dateUpdate_none_of_eq page docs h3, hkw, htags, hrins]

/-- Witness for C4 at a concrete page whose stored state equals the fetched
state up to ordering. -/
theorem refresh_frame_witness :
    (refreshUpdates false
        ⟨["DOC-1", "DOC-2"], ["D-1"], ["k"], ["t"], ["1234-AB00"], some 3600⟩
        [⟨"DOC-2", some "D-1", some 3605⟩, ⟨"DOC-1", none, none⟩]
        (fun _ => ⟨"D-1", "T", "Rulemaking", some ["k"], none⟩)).docketDocuments = none
    ∧ refreshUpdates false
        ⟨["DOC-1", "DOC-2"], ["D-1"], ["k"], ["t"], ["1234-AB00"], some 3600⟩
        [⟨"DOC-2", some "D-1", some 3605⟩, ⟨"DOC-1", none, none⟩]
        (fun _ => ⟨"D-1", "T", "Rulemaking", some ["k"], none⟩) = noUpdates :=
  ⟨refresh_frame.1 false _ _ _ (by decide),
   refresh_frame.2.1 _ _ _ (by decide) (by decide) (by decide)⟩

/-- C7 (amended): in discovery mode the Tags field equals, as a set, the
union of topic tags and docket keywords with each tag's comma-plus-space
pairs rewritten to " and "; in refresh mode the Tags field is recomputed
exactly when the Docket Keywords field is (whenever the keyword set changes)
and equals, as a set, the union of the stored topic tags and the new keyword
set, with no comma rewriting applied. -/
theorem tags_amended :
    (∀ (topicsRaw : List String) (dockets : List Docket),
        (discoveryTags topicsRaw dockets).toFinset
          = specTagSet topicsRaw.toFinset ((dockets.map Docket.keywords).flatten).toFinset)
    ∧ (∀ (always : Bool) (page : PageState) (docs : List FoundDoc)
        (getDocket : String → DocketPayload),
        ((refreshUpdates always page docs getDocket).tags.isSome
           ↔ (refreshUpdates always page docs getDocket).docketKeywords.isSome)
        ∧ (∀ l, (refreshUpdates always page docs getDocket).tags = some l →
            l.toFinset = page.topics.toFinset
              ∪ (newKeywordsOf docs getDocket).toFinset)) := by
  have toFinset_mapStrings : ∀ (f : String → String) (l : List String),
      (l.map f).toFinset = l.toFinset.image f := by
    intro f l
    ext a
    simp
  constructor
  · intro topicsRaw dockets
    have hA : (frTopicsOf topicsRaw).toFinset = topicsRaw.toFinset := by
      rw [frTopicsOf, toFinset_sortStrings, toFinset_dedupList]
    have hB : (discoveryKeywords dockets).toFinset
        = ((dockets.map Docket.keywords).flatten).toFinset := by
      rw [discoveryKeywords, toFinset_sortStrings, toFinset_dedupList]
    rw [discoveryTags, toFinset_mapStrings, List.toFinset_append, hA, hB, specTagSet]
  · intro always page docs getDocket
    have hcond :
        (refreshUpdates always page docs getDocket).tags
          = tagsUpdateOf always page docs getDocket := rfl
    have hcond2 :
        (refreshUpdates always page docs getDocket).docketKeywords
          = kwUpdateOf always page docs getDocket := rfl
    constructor
    · rw [hcond, hcond2]
      unfold tagsUpdateOf kwUpdateOf
      by_cases hc : metaActive always page docs
          ∧ page.keywords.toFinset ≠ (newKeywordsOf docs getDocket).toFinset
      · rw [if_pos hc, if_pos hc]
        simp
      · rw [if_neg hc, if_neg hc]
    · intro l hl
      rw [hcond] at hl
      unfold tagsUpdateOf at hl
      split at hl
      · have hv : l = sortStrings
            (page.topics.dedup ++ (newKeywordsOf docs getDocket).dedup) :=
          (Option.some.inj hl).symm
        rw [hv, toFinset_sortStrings, List.toFinset_append,
            toFinset_dedupList, toFinset_dedupList]
      · exact absurd hl (by simp)

/-- Counterexample for C7 as stated: in refresh mode the emitted Tags list
keeps the stored topic "a, b" verbatim, while the claimed set rewrites it to
"a and b". -/
theorem tags_cex :
    (refreshUpdates false ⟨[], [], [], ["a, b"], [], none⟩ [⟨"X", some "D1", none⟩]
        (fun _ => ⟨"D1", "T", "Rulemaking", some ["k"], none⟩)).tags = some ["a, b", "k"]
    ∧ (["a, b", "k"] : List String).toFinset
        ≠ specTagSet ((["a, b"] : List String).toFinset)
            ((newKeywordsOf [⟨"X", some "D1", none⟩]
              (fun _ => ⟨"D1", "T", "Rulemaking", some ["k"], none⟩)).toFinset) := by
  decide

/-- Witness for C7 at the same concrete refresh scenario. -/
theorem tags_witness :
    ((refreshUpdates false ⟨[], [], [], ["a, b"], [], none⟩ [⟨"X", some "D1", none⟩]
        (fun _ => ⟨"D1", "T", "Rulemaking", some ["k"], none⟩)).tags.isSome
      ↔ (refreshUpdates false ⟨[], [], [], ["a, b"], [], none⟩ [⟨"X", some "D1", none⟩]
        (fun _ => ⟨"D1", "T", "Rulemaking", some ["k"], none⟩)).docketKeywords.isSome)
    ∧ (["a, b", "k"] : List String).toFinset
        = (⟨[], [], [], ["a, b"], [], none⟩ : PageState).topics.toFinset
          ∪ (newKeywordsOf [⟨"X", some "D1", none⟩]
              (fun _ => ⟨"D1", "T", "Rulemaking", some ["k"], none⟩)).toFinset :=
  ⟨(tags_amended.2 false ⟨[], [], [], ["a, b"], [], none⟩ [⟨"X", some "D1", none⟩]
      (fun _ => ⟨"D1", "T", "Rulemaking", some ["k"], none⟩)).1,
   (tags_amended.2 false ⟨[], [], [], ["a, b"], [], none⟩ [⟨"X", some "D1", none⟩]
      (fun _ => ⟨"D1", "T", "Rulemaking", some ["k"], none⟩)).2 ["a, b", "k"] (by decide)⟩
